import Mathlib

/-!
Verification of the report-assembly pipeline of the tavily-company-research
repository, shallowly embedded in Lean 4.

Python strings are modelled as `List Char` (one element per code point), Python
dicts of documents as association lists with Python's insertion-order/overwrite
semantics, and each call to an external backend (the generative text backend,
the retrieval backend) as an explicit outcome value: the list of chunks the call
streamed, plus whether it raised.
-/

namespace TavilyResearch

/-- Model of a Python `str`: a list of code points. -/
abbrev Str := List Char

/-- Model of Python's default `str.strip()`: remove leading and trailing
whitespace characters. -/
def pyStrip (s : Str) : Str :=
  (((s.dropWhile Char.isWhitespace).reverse).dropWhile Char.isWhitespace).reverse

/-- Model of Python's `sep.join(xs)`. -/
def joinSep (sep : Str) : List Str → Str
  | [] => []
  | [x] => x
  | x :: y :: xs => x ++ sep ++ joinSep sep (y :: xs)

/-- The head of `dropWhile p l`, when it exists, does not satisfy `p`. -/
theorem head_dropWhile_not (p : Char → Bool) (l : Str) :
    ∀ x, (l.dropWhile p).head? = some x → p x = false := by
  induction l with
  | nil => intro x hx; simp [List.dropWhile] at hx
  | cons a t ih =>
    intro x hx
    by_cases ha : p a
    · rw [List.dropWhile_cons_of_pos ha] at hx
      exact ih x hx
    · rw [List.dropWhile_cons_of_neg ha] at hx
      simp at hx
      subst hx
      exact Bool.of_not_eq_true ha

/-- `dropWhile p` fixes a list whose head does not satisfy `p`. -/
theorem dropWhile_eq_self_of_head (p : Char → Bool) (l : Str)
    (h : ∀ x, l.head? = some x → p x = false) : l.dropWhile p = l := by
  cases l with
  | nil => rfl
  | cons a t =>
    have ha : p a = false := h a (by simp)
    simp [List.dropWhile, ha]

/-- `dropWhile p` is idempotent. -/
theorem dropWhile_dropWhile (p : Char → Bool) (l : Str) :
    (l.dropWhile p).dropWhile p = l.dropWhile p :=
  dropWhile_eq_self_of_head p _ (head_dropWhile_not p l)

/-- `dropWhile p l` is a suffix of `l` (witnessed by the dropped prefix). -/
theorem dropWhile_suffix_exists (p : Char → Bool) (l : Str) :
    ∃ t, t ++ l.dropWhile p = l := by
  induction l with
  | nil => exact ⟨[], rfl⟩
  | cons a t ih =>
    by_cases ha : p a
    · obtain ⟨u, hu⟩ := ih
      exact ⟨a :: u, by simp [List.dropWhile_cons_of_pos ha, hu]⟩
    · exact ⟨[], by simp [List.dropWhile_cons_of_neg ha]⟩

/-- Stripping is idempotent: `s.strip().strip() == s.strip()`. -/
theorem pyStrip_idem (s : Str) : pyStrip (pyStrip s) = pyStrip s := by
  set p := Char.isWhitespace with hp
  set a := s.dropWhile p with hA
  set c := a.reverse.dropWhile p with hC
  have hps : pyStrip s = c.reverse := rfl
  have hfix : c.reverse.dropWhile p = c.reverse := by
    apply dropWhile_eq_self_of_head
    intro x hx
    have hgl : c.getLast? = some x := by rwa [List.head?_reverse] at hx
    obtain ⟨t, ht⟩ := dropWhile_suffix_exists p a.reverse
    have h1 : (t ++ c).getLast? = some x := by
      rw [List.getLast?_append, hgl]; rfl
    have h2 : a.head? = some x := by
      rw [← List.getLast?_reverse, ← ht]; exact h1
    exact head_dropWhile_not p s x (by rw [hA] at h2; exact h2)
  have hcd : c.dropWhile p = c := by rw [hC]; exact dropWhile_dropWhile p a.reverse
  calc pyStrip (pyStrip s)
      = ((c.reverse.dropWhile p).reverse.dropWhile p).reverse := by rw [hps]; rfl
    _ = (c.reverse.reverse.dropWhile p).reverse := by rw [hfix]
    _ = (c.dropWhile p).reverse := by rw [List.reverse_reverse]
    _ = c.reverse := by rw [hcd]
    _ = pyStrip s := hps.symm

/-- Every element of `takeWhile p l` satisfies `p`. -/
theorem mem_takeWhile_py (p : Char → Bool) (l : Str) :
    ∀ x ∈ l.takeWhile p, p x = true := by
  induction l with
  | nil => intro x hx; simp [List.takeWhile] at hx
  | cons a t ih =>
    intro x hx
    by_cases ha : p a
    · rw [List.takeWhile_cons_of_pos ha] at hx
      rcases List.mem_cons.mp hx with h | h
      · rw [h]; exact ha
      · exact ih x h
    · rw [List.takeWhile_cons_of_neg ha] at hx
      simp at hx

/-- Every element of `dropWhile p l` is an element of `l`. -/
theorem mem_of_mem_dropWhile_py (p : Char → Bool) (l : Str) :
    ∀ x ∈ l.dropWhile p, x ∈ l := by
  intro x hx
  obtain ⟨t, ht⟩ := dropWhile_suffix_exists p l
  rw [← ht]
  exact List.mem_append_right t hx

/-- A string strips to empty iff every character is whitespace. -/
theorem pyStrip_eq_nil_iff (s : Str) :
    pyStrip s = [] ↔ ∀ x ∈ s, x.isWhitespace = true := by
  unfold pyStrip
  rw [List.reverse_eq_nil_iff, List.dropWhile_eq_nil_iff]
  simp only [List.mem_reverse]
  constructor
  · intro h x hx
    have hx' : x ∈ s.takeWhile Char.isWhitespace ++ s.dropWhile Char.isWhitespace := by
      rw [List.takeWhile_append_dropWhile]; exact hx
    rcases List.mem_append.mp hx' with h1 | h2
    · exact mem_takeWhile_py _ s x h1
    · exact h x h2
  · intro h x hx
    exact h x (mem_of_mem_dropWhile_py Char.isWhitespace s x hx)

/-! ## Generative backend model

`src/backend/nodes/editor.py` calls `self.gemini_model.generate_content(prompt,
stream=True)` and iterates the streamed chunks.  A call is modelled by a
`GenOutcome`: the chunks the stream yielded (in order) and whether an exception
was raised (after those chunks).  Each of the three generative phases follows
the same loop: accumulate every chunk, forward it to the observer channel when
both a websocket manager and a job id are present (`hasObs`), and on exception
fall back to a phase-specific string, always returning `.strip()`ed text. -/

/-- One `generate_content(prompt, stream=True)` call: the chunks it streamed,
and whether it ended by raising an exception. -/
structure GenOutcome where
  chunks : List Str
  failed : Bool
deriving DecidableEq

/-- The chunk loop of each phase (`async for chunk in response`): accumulate
the text and forward each chunk to the observer channel when present.  The
Python loop folds from the left; this right recursion produces the same
accumulated string (list append is associative) and the same chunk sequence. -/
def streamChunks (hasObs : Bool) : List Str → Str × List Str
  | [] => ([], [])
  | c :: rest =>
    let r := streamChunks hasObs rest
    (c ++ r.1, (if hasObs then [c] else []) ++ r.2)

/-- Result of one generative phase: the accumulated text of the loop, the
chunks sent to the observer channel, and the value the phase returns. -/
structure PhaseRun where
  accumulated : Str
  streamed : List Str
  result : Str
deriving DecidableEq

/-- Shared shape of `compile_content`, `content_sweep` and `clean_markdown`
in `editor.py`: stream, accumulate, return `accumulated.strip()`; on
exception return `fallback.strip()`. -/
def runGenPhase (hasObs : Bool) (o : GenOutcome) (fallback : Str) : PhaseRun :=
  let s := streamChunks hasObs o.chunks
  { accumulated := s.1
    streamed := s.2
    result := if o.failed then pyStrip fallback else pyStrip s.1 }

/-- `combined_content` in `Editor.compile_content`:
`"\n\n".join(content for header, content in briefings.items())`. -/
def combinedContent (briefings : List Str) : Str :=
  joinSep "\n\n".data briefings

/-- `Editor.compile_content` (editor.py lines 180-246): initial compilation;
on exception falls back to `(combined_content or "").strip()`. -/
def compile_content (briefings : List Str) (hasObs : Bool) (o : GenOutcome) : PhaseRun :=
  runGenPhase hasObs o (combinedContent briefings)

/-- `Editor.content_sweep` (editor.py lines 248-287): redundancy sweep; on
exception falls back to `(content or "").strip()`. -/
def content_sweep (content : Str) (hasObs : Bool) (o : GenOutcome) : PhaseRun :=
  runGenPhase hasObs o content

/-- `Editor.clean_markdown` (editor.py lines 289-358): format enforcement; on
exception falls back to `(content or "").strip()`. -/
def clean_markdown (content : Str) (hasObs : Bool) (o : GenOutcome) : PhaseRun :=
  runGenPhase hasObs o content

/-- The refinement pipeline of `Editor.edit_report` up to (excluding) the
assembly step: compose, then sweep, then format enforcement, with the early
`return ""` exits on an empty intermediate result. -/
def pipelineBeforeAssembly (briefings : List Str) (hasObs : Bool)
    (o1 o2 o3 : GenOutcome) : Str :=
  let initial := (compile_content briefings hasObs o1).result
  if initial.isEmpty then []
  else
    let edited := (content_sweep initial hasObs o2).result
    if edited.isEmpty then []
    else (clean_markdown edited hasObs o3).result

/-! ## Assembly -/

/-- Splitting a string into lines at `'\n'` (Python `str.split("\n")`). -/
def splitLines : Str → List Str
  | [] => [[]]
  | c :: rest =>
    if c = '\n' then [] :: splitLines rest
    else
      match splitLines rest with
      | [] => [[c]]
      | l :: ls => (c :: l) :: ls

/-- A line whose characters are all whitespace (or none). -/
def isBlank (l : Str) : Bool := (pyStrip l).isEmpty

/-- A markdown section header line (`## ...`). -/
def isSectionHeader (l : Str) : Bool := List.isPrefixOf "## ".data l

/-- Normalize a bullet marker: a line starting `"- "` becomes `"* "`.
Part of the spec-modelled normalization pass below. -/
def normBullet (l : Str) : Str :=
  if l.take 2 = "- ".data then '*' :: l.drop 1 else l

/-- Whether a line list starts with a blank line. -/
def headBlank : List Str → Bool
  | [] => false
  | b :: _ => isBlank b

/-- Collapse each run of consecutive blank lines to its final blank line.
Part of the spec-modelled normalization pass below. -/
def collapseBlanks : List Str → List Str
  | [] => []
  | a :: rest =>
    if isBlank a && headBlank rest then collapseBlanks rest
    else a :: collapseBlanks rest

/-- Modelled from the spec: `standardize_markdown` lives in
`src/backend/utils/markdown.py`, which is not among the sources; the spec
describes it as "an idempotent structural-normalization pass (header
set/order, blank-line spacing, bullet markers)" that is deterministic and
non-generative.  It is modelled as a line-wise pass that normalizes bullet
markers and collapses blank-line runs, preserving the order of lines. -/
def standardize_markdown (s : Str) : Str :=
  joinSep "\n".data (collapseBlanks ((splitLines s).map normBullet))

/-- One reference bullet: `f"* [{ref}]({ref})"`. -/
def bulletLine (r : Str) : Str :=
  "* [".data ++ r ++ "](".data ++ r ++ ")".data

/-- The references text appended by `Editor.edit_report` (lines 157-161):
`"\n".join(["\n\n## References\n"] + [f"* [{ref}]({ref})" for ref in refs])`. -/
def referencesBlock (refs : List Str) : Str :=
  joinSep "\n".data ("\n\n## References\n".data :: refs.map bulletLine)

/-- `Editor.edit_report` (editor.py lines 108-178): the three generative
phases with their early empty exits, then assembly (append the references
section when the reference list is non-empty, then standardize).  The second
component counts the generative backend calls made. -/
def edit_report (briefings : List Str) (refs : List Str) (hasObs : Bool)
    (o1 o2 o3 : GenOutcome) : Str × Nat :=
  let initial := (compile_content briefings hasObs o1).result
  if initial.isEmpty then ([], 1)
  else
    let edited := (content_sweep initial hasObs o2).result
    if edited.isEmpty then ([], 2)
    else
      let final := (clean_markdown edited hasObs o3).result
      let final2 := if refs.isEmpty then final else final ++ referencesBlock refs
      (standardize_markdown final2, 3)

/-! ## `Editor.compile_briefings` -/

/-- The slice of `ResearchState` that `Editor.compile_briefings` reads and
writes.  `none` models an absent key as well as Python `None`; `hasObserver`
is the conjunction "a websocket manager and a job id are present". -/
structure EditorState where
  company : Option Str
  industry : Option Str
  hq_location : Option Str
  company_briefing : Option Str
  industry_briefing : Option Str
  financial_briefing : Option Str
  news_briefing : Option Str
  references : List Str
  hasObserver : Bool
  messages : List Str
  report : Option Str
deriving DecidableEq

/-- Python truthiness of an optional string (`if content := state.get(key)`):
false when the key is absent or the string is empty. -/
def truthy : Option Str → Bool
  | none => false
  | some s => !s.isEmpty

/-- The `briefing_keys` mapping of `compile_briefings`, in insertion order. -/
def briefingEntries (st : EditorState) : List (Str × Option Str) :=
  [("company".data, st.company_briefing),
   ("industry".data, st.industry_briefing),
   ("financial".data, st.financial_briefing),
   ("news".data, st.news_briefing)]

/-- `individual_briefings`: the categories whose briefing key is truthy. -/
def availableBriefings (st : EditorState) : List (Str × Str) :=
  (briefingEntries st).filterMap fun e =>
    match e.2 with
    | some s => if s.isEmpty then none else some (e.1, s)
    | none => none

/-- Decimal rendering of a `Nat`, for the narrative character counts. -/
def natStr (n : Nat) : Str := (toString n).data

/-- The per-category narrative line of the collection loop. -/
def briefingMsg (e : Str × Option Str) : Str :=
  match e.2 with
  | some s =>
    if s.isEmpty then "No ".data ++ e.1 ++ " briefing available".data
    else "Found ".data ++ e.1 ++ " briefing (".data ++ natStr s.length
         ++ " characters)".data
  | none => "No ".data ++ e.1 ++ " briefing available".data

/-- `Editor.compile_briefings` (editor.py lines 24-106): short-circuit when no
briefing is available, otherwise run `edit_report` and keep its result only
when it is non-blank; always append the joined narrative `msg` to `messages`.
The second component counts generative backend calls. -/
def compile_briefings (st : EditorState) (o1 o2 o3 : GenOutcome) :
    EditorState × Nat :=
  let company := st.company.getD "Unknown Company".data
  let msg0 := ("📑 Compiling final report for ".data ++ company ++ "...".data)
    :: (briefingEntries st).map briefingMsg
  let avail := availableBriefings st
  if avail.isEmpty then
    ({ st with
        report := none
        messages := st.messages ++
          [joinSep "\n".data
            (msg0 ++ ["\n⚠️ No briefing sections available to compile".data])] }, 0)
  else
    let rc := edit_report (avail.map (·.2)) st.references st.hasObserver o1 o2 o3
    if (pyStrip rc.1).isEmpty then
      ({ st with
          report := none
          messages := st.messages ++
            [joinSep "\n".data
              (msg0 ++ ["\n⚠️ Error: Failed to generate report content".data])] }, rc.2)
    else
      ({ st with
          report := some rc.1
          messages := st.messages ++
            [joinSep "\n".data
              (msg0 ++ ["\n✅ Report compilation complete".data])] }, rc.2)

/-! ## `CompanyAnalyzer.analyze`

`src/backend/nodes/researchers/company.py`.  `generate_queries` and
`search_documents` live in the `BaseResearcher` base class and the retrieval
backend, both external collaborators here; each call is modelled by an
explicit outcome (`Except`, where `.error e` is an exception whose `str` is
`e`).  `company_data` is a Python dict keyed by source locator: an
association list with Python's semantics (overwrite in place, insert at the
end). -/

/-- A document as returned by the retrieval backend
(`search(query) -> mapping source-locator -> title/raw text/score`). -/
structure RawDoc where
  title : Str
  raw_content : Str
  score : Option Nat
deriving DecidableEq

/-- A document stored in `company_data`, after `doc['query'] = query`. -/
structure CompanyDoc where
  title : Str
  raw_content : Str
  score : Option Nat
  query : Str
deriving DecidableEq

/-- Tag a retrieved document with its originating sub-query. -/
def tagDoc (q : Str) (d : RawDoc) : CompanyDoc :=
  { title := d.title, raw_content := d.raw_content, score := d.score, query := q }

/-- The default query attached to the pre-fetched site-scrape entry:
`f'Company overview and information about {company}'`. -/
def siteQuery (company : Str) : Str :=
  "Company overview and information about ".data ++ company

/-- The site-scrape document (company.py lines 39-43). -/
def siteDoc (company site_scrape : Str) : CompanyDoc :=
  { title := company, raw_content := site_scrape, score := none,
    query := siteQuery company }

/-- `d[k] = v` on a Python dict: overwrite in place, else append. -/
def dictInsert (k : Str) (v : CompanyDoc) :
    List (Str × CompanyDoc) → List (Str × CompanyDoc)
  | [] => [(k, v)]
  | (k', v') :: rest =>
    if k' = k then (k, v) :: rest else (k', v') :: dictInsert k v rest

/-- Dict lookup by key (first, and with `dictInsert` only, occurrence). -/
def lookupKey (u : Str) (l : List (Str × CompanyDoc)) : Option CompanyDoc :=
  (l.find? fun e => e.1 = u).map (·.2)

/-- The inner loop body: store every document of one sub-query's batch,
tagged with that query (`doc['query'] = query; company_data[url] = doc`). -/
def insertDocs (q : Str) (docs : List (Str × RawDoc))
    (data : List (Str × CompanyDoc)) : List (Str × CompanyDoc) :=
  docs.foldl (fun d ud => dictInsert ud.1 (tagDoc q ud.2) d) data

/-- The `for query in queries` research loop inside the `try` block
(company.py lines 48-53): an exception at one sub-query aborts the loop,
keeping the data collected so far; empty batches are skipped. -/
def researchLoop (search : Str → Except Str (List (Str × RawDoc))) :
    List Str → List (Str × CompanyDoc) → List (Str × CompanyDoc) × Option Str
  | [], data => (data, none)
  | q :: qs, data =>
    match search q with
    | .error e => (data, some e)
    | .ok docs =>
      researchLoop search qs (if docs.isEmpty then data else insertDocs q docs data)

/-- The slice of `ResearchState` that `CompanyAnalyzer.analyze` reads. -/
structure CompanyState where
  company : Option Str
  company_url : Option Str
  site_scrape : Option Str
  messages : List Str
deriving DecidableEq

/-- The external calls `analyze` makes: `generate_queries` (one generative
call) and `search_documents([query])` per sub-query. -/
structure AnalyzeEnv where
  queries : Except Str (List Str)
  search : Str → Except Str (List (Str × RawDoc))

/-- The partial state update `analyze` returns
(`{'message': msg, 'company_data': company_data}`). -/
structure AnalyzeResult where
  message : List Str
  company_data : List (Str × CompanyDoc)
deriving DecidableEq

/-- The initial `company_data`, seeded from the site scrape when truthy
(company.py lines 33-43). -/
def initialCompanyData (st : CompanyState) : List (Str × CompanyDoc) :=
  if truthy st.site_scrape then
    [(st.company_url.getD "company-website".data,
      siteDoc (st.company.getD "Unknown Company".data) (st.site_scrape.getD []))]
  else []

/-- The narrative entry of the research-loop exception handler:
`f"\n⚠️ Error during research: {str(e)}"`. -/
def researchErrMsg (e : Str) : Str :=
  "\n⚠️ Error during research: ".data ++ e

/-- `CompanyAnalyzer.analyze` (company.py lines 12-68).  `generate_queries`
is called outside the `try` block, so its exception propagates (`.error`);
an exception inside the research loop is caught and replaces the final
found-count narrative entry with an error entry. -/
def analyze (st : CompanyState) (env : AnalyzeEnv) : Except Str AnalyzeResult :=
  let company := st.company.getD "Unknown Company".data
  match env.queries with
  | .error e => .error e
  | .ok queries =>
    let msg1 := [("🏢 Company Analyzer analyzing ".data ++ company)]
    let msg2 := msg1 ++
      (if truthy st.site_scrape then
        ["\n📊 Including site scrape data in company analysis...".data]
      else [])
    let r := researchLoop env.search queries (initialCompanyData st)
    let msg3 := msg2 ++
      [match r.2 with
       | some e => researchErrMsg e
       | none => "\n✓ Found ".data ++ natStr r.1.length ++ " documents".data]
    .ok { message := msg3, company_data := r.1 }

/-! ## Fan-out stage update keys -/

/-- The keys of the partial state update returned by the company analysis
stage, from the return dict of `CompanyAnalyzer.analyze`. -/
def companyUpdateKeys : List String := ["message", "company_data"]

/-- Modelled from the spec: the update keys of the financial analysis stage.
Only the company stage's code is among the sources; the spec describes the
four fan-out stages uniformly ("appends a narrative entry; writes into its
own exclusive state key"), so each remaining stage is modelled after the
company stage's return shape with its own category data key. -/
def financialUpdateKeys : List String := ["message", "financial_data"]

/-- Modelled from the spec: the update keys of the news scanning stage
(see `financialUpdateKeys`). -/
def newsUpdateKeys : List String := ["message", "news_data"]

/-- Modelled from the spec: the update keys of the industry analysis stage
(see `financialUpdateKeys`). -/
def industryUpdateKeys : List String := ["message", "industry_data"]

/-- The update key sets of the four concurrent fan-out stages. -/
def fanOutUpdateKeys : List (List String) :=
  [companyUpdateKeys, financialUpdateKeys, newsUpdateKeys, industryUpdateKeys]

/-- The exclusive per-category data keys of the four fan-out stages. -/
def fanOutDataKeys : List String :=
  ["company_data", "financial_data", "news_data", "industry_data"]

/-! ## Graph topology (`src/backend/graph.py`, `Graph.__init__`) -/

/-- The nodes added to the workflow, in `add_node` order. -/
def graphNodes : List String :=
  ["grounding", "financial_analyst", "news_scanner", "industry_analyst",
   "company_analyst", "collector", "curator", "enricher", "briefing",
   "editor", "output"]

/-- `research_nodes` (graph.py line 73). -/
def researchNodes : List String :=
  ["financial_analyst", "news_scanner", "industry_analyst", "company_analyst"]

/-- The edges added in `Graph.__init__` (lines 76-93), in `add_edge` order:
the research-node loop interleaves fan-out and fan-in edges, then the linear
chain follows. -/
def graphEdges : List (String × String) :=
  [("grounding", "financial_analyst"), ("financial_analyst", "collector"),
   ("grounding", "news_scanner"), ("news_scanner", "collector"),
   ("grounding", "industry_analyst"), ("industry_analyst", "collector"),
   ("grounding", "company_analyst"), ("company_analyst", "collector"),
   ("collector", "curator"), ("curator", "enricher"),
   ("enricher", "briefing"), ("briefing", "editor"), ("editor", "output")]

/-- `set_entry_point("grounding")`. -/
def entryPoint : String := "grounding"

/-- `set_finish_point("output")`. -/
def finishPoint : String := "output"

/-- Whether a node has an incoming edge. -/
def hasIncoming (n : String) : Bool := graphEdges.any fun e => e.2 = n

/-- Whether a node has an outgoing edge. -/
def hasOutgoing (n : String) : Bool := graphEdges.any fun e => e.1 = n

/-- Executor eligibility (spec 4.1): a stage becomes eligible once all of its
direct predecessors have completed. -/
def eligible (n : String) (completed : List String) : Prop :=
  ∀ m, (m, n) ∈ graphEdges → m ∈ completed

/-! ## Write sequences over `company_data` -/

/-- Apply a sequence of keyed writes to a dict, in order. -/
def applyWrites (ws : List (Str × CompanyDoc)) (d : List (Str × CompanyDoc)) :
    List (Str × CompanyDoc) :=
  ws.foldl (fun d w => dictInsert w.1 w.2 d) d

/-- The writes the research loop performs, in program order; an exception at
one sub-query truncates the sequence there, and empty batches contribute
nothing. -/
def loopWrites (search : Str → Except Str (List (Str × RawDoc))) :
    List Str → List (Str × CompanyDoc)
  | [] => []
  | q :: qs =>
    match search q with
    | .error _ => []
    | .ok docs => docs.map (fun ud => (ud.1, tagDoc q ud.2)) ++ loopWrites search qs

/-- The writes that seed `company_data` before the loop. -/
def initialWrites (st : CompanyState) : List (Str × CompanyDoc) :=
  if truthy st.site_scrape then
    [(st.company_url.getD "company-website".data,
      siteDoc (st.company.getD "Unknown Company".data) (st.site_scrape.getD []))]
  else []

/-- The value of the last write in `ws` whose key is `u`. -/
def lastWrite (u : Str) (ws : List (Str × CompanyDoc)) : Option CompanyDoc :=
  (ws.reverse.find? fun w => w.1 = u).map (·.2)

theorem lookupKey_dictInsert (u k : Str) (v : CompanyDoc)
    (l : List (Str × CompanyDoc)) :
    lookupKey u (dictInsert k v l) = if k = u then some v else lookupKey u l := by
  induction l with
  | nil =>
    simp only [dictInsert, lookupKey, List.find?]
    by_cases h : k = u <;> simp [h]
  | cons e rest ih =>
    obtain ⟨k', v'⟩ := e
    simp only [dictInsert]
    by_cases h1 : k' = k
    · subst h1
      by_cases h2 : k' = u <;> simp [lookupKey, List.find?, h2]
    · simp only [if_neg h1]
      by_cases h2 : k' = u
      · subst h2
        have : ¬(k = k') := fun h => h1 h.symm
        simp [lookupKey, List.find?, this]
      · have hd : (decide (((k', v') : Str × CompanyDoc).1 = u)) = false := by
          simp [h2]
        simp only [lookupKey, List.find?, hd] at ih ⊢
        exact ih

theorem lookupKey_applyWrites (u : Str) (ws : List (Str × CompanyDoc)) :
    ∀ d, lookupKey u (applyWrites ws d) =
      ((lastWrite u ws).map some).getD (lookupKey u d) := by
  induction ws with
  | nil => intro d; simp [applyWrites, lastWrite]
  | cons w rest ih =>
    intro d
    obtain ⟨k, v⟩ := w
    have happ : applyWrites ((k, v) :: rest) d = applyWrites rest (dictInsert k v d) := rfl
    rw [happ, ih]
    simp only [lastWrite, List.reverse_cons, List.find?_append]
    cases hf : List.find? (fun w => decide (w.1 = u)) rest.reverse with
    | some w' => simp [Option.or]
    | none =>
      simp only [Option.or, Option.map, Option.getD]
      by_cases h : k = u
      · subst h
        simp [lookupKey_dictInsert, List.find?]
      · have hd : (decide ((k, v).1 = u)) = false := by simp [h]
        simp [List.find?, hd, lookupKey_dictInsert, h]

theorem applyWrites_append (w1 w2 : List (Str × CompanyDoc)) (d) :
    applyWrites (w1 ++ w2) d = applyWrites w2 (applyWrites w1 d) := by
  simp [applyWrites, List.foldl_append]

/-- The research loop is the application of its write sequence, when it does
not abort, and of the truncated sequence when it does. -/
theorem researchLoop_eq_applyWrites
    (search : Str → Except Str (List (Str × RawDoc))) (qs : List Str) :
    ∀ d, (researchLoop search qs d).1 = applyWrites (loopWrites search qs) d := by
  induction qs with
  | nil => intro d; simp [researchLoop, loopWrites, applyWrites]
  | cons q rest ih =>
    intro d
    simp only [researchLoop, loopWrites]
    cases hs : search q with
    | error e => rfl
    | ok docs =>
      dsimp only
      simp only [applyWrites_append, ih]
      congr 1
      by_cases hd : docs.isEmpty
      · simp at hd
        simp [hd, insertDocs, applyWrites]
      · simp only [if_neg hd]
        simp [insertDocs, applyWrites, List.foldl_map]

/-- Entries produced by `dictInsert` are the new pair or old entries. -/
theorem mem_dictInsert (k : Str) (v : CompanyDoc) (l : List (Str × CompanyDoc)) :
    ∀ e, e ∈ dictInsert k v l → e = (k, v) ∨ e ∈ l := by
  induction l with
  | nil => intro e he; simp [dictInsert] at he; exact Or.inl he
  | cons a rest ih =>
    intro e he
    obtain ⟨k', v'⟩ := a
    simp only [dictInsert] at he
    by_cases h : k' = k
    · rw [if_pos h] at he
      rcases List.mem_cons.mp he with h1 | h1
      · exact Or.inl h1
      · exact Or.inr (List.mem_cons.mpr (Or.inr h1))
    · rw [if_neg h] at he
      rcases List.mem_cons.mp he with h1 | h1
      · exact Or.inr (List.mem_cons.mpr (Or.inl h1))
      · rcases ih e h1 with h2 | h2
        · exact Or.inl h2
        · exact Or.inr (List.mem_cons.mpr (Or.inr h2))

/-- Entries after `insertDocs` are tagged batch documents or old entries. -/
theorem mem_insertDocs (q : Str) (docs : List (Str × RawDoc)) :
    ∀ data e, e ∈ insertDocs q docs data →
      (∃ ud ∈ docs, e = (ud.1, tagDoc q ud.2)) ∨ e ∈ data := by
  induction docs with
  | nil => intro data e he; exact Or.inr he
  | cons ud rest ih =>
    intro data e he
    have he' : e ∈ insertDocs q rest (dictInsert ud.1 (tagDoc q ud.2) data) := he
    rcases ih _ e he' with h1 | h1
    · obtain ⟨ud', hm, hud⟩ := h1
      exact Or.inl ⟨ud', List.mem_cons.mpr (Or.inr hm), hud⟩
    · rcases mem_dictInsert _ _ _ e h1 with h2 | h2
      · exact Or.inl ⟨ud, List.mem_cons.mpr (Or.inl rfl), h2⟩
      · exact Or.inr h2

/-- Entries after the research loop are tagged documents from a successful
batch of one of the traversed sub-queries, or entries of the initial data. -/
theorem mem_researchLoop (search : Str → Except Str (List (Str × RawDoc))) :
    ∀ (qs : List Str) (data : List (Str × CompanyDoc)) e,
      e ∈ (researchLoop search qs data).1 →
      (∃ q ∈ qs, ∃ docs, search q = .ok docs ∧
        ∃ ud ∈ docs, e = (ud.1, tagDoc q ud.2)) ∨ e ∈ data := by
  intro qs
  induction qs with
  | nil => intro data e he; exact Or.inr he
  | cons q rest ih =>
    intro data e he
    simp only [researchLoop] at he
    cases hs : search q with
    | error err => rw [hs] at he; exact Or.inr he
    | ok docs =>
      rw [hs] at he
      rcases ih _ e he with h1 | h1
      · obtain ⟨q', hq', docs', hs', hud⟩ := h1
        exact Or.inl ⟨q', List.mem_cons.mpr (Or.inr hq'), docs', hs', hud⟩
      · by_cases hd : docs.isEmpty
        · rw [if_pos hd] at h1; exact Or.inr h1
        · rw [if_neg hd] at h1
          rcases mem_insertDocs q docs data e h1 with h2 | h2
          · obtain ⟨ud, hm, hud⟩ := h2
            exact Or.inl ⟨q, List.mem_cons.mpr (Or.inl rfl), docs, hs, ud, hm, hud⟩
          · exact Or.inr h2

/-- `dictInsert` preserves presence of any key. -/
theorem lookupKey_dictInsert_ne_none (u k : Str) (v : CompanyDoc)
    (l : List (Str × CompanyDoc)) (h : lookupKey u l ≠ none) :
    lookupKey u (dictInsert k v l) ≠ none := by
  rw [lookupKey_dictInsert]
  by_cases hk : k = u
  · simp [hk]
  · simpa [hk] using h

/-- `insertDocs` preserves presence of any key. -/
theorem lookupKey_insertDocs_ne_none (u q : Str) (docs : List (Str × RawDoc)) :
    ∀ data, lookupKey u data ≠ none → lookupKey u (insertDocs q docs data) ≠ none := by
  induction docs with
  | nil => intro data h; exact h
  | cons ud rest ih =>
    intro data h
    exact ih _ (lookupKey_dictInsert_ne_none u ud.1 (tagDoc q ud.2) data h)

/-- The research loop preserves presence of any key. -/
theorem lookupKey_researchLoop_ne_none
    (search : Str → Except Str (List (Str × RawDoc))) (u : Str) :
    ∀ (qs : List Str) data, lookupKey u data ≠ none →
      lookupKey u (researchLoop search qs data).1 ≠ none := by
  intro qs
  induction qs with
  | nil => intro data h; exact h
  | cons q rest ih =>
    intro data h
    simp only [researchLoop]
    cases hs : search q with
    | error e => exact h
    | ok docs =>
      dsimp only
      by_cases hd : docs.isEmpty
      · rw [if_pos hd]; exact ih _ h
      · rw [if_neg hd]
        exact ih _ (lookupKey_insertDocs_ne_none u q docs data h)

/-! ## Lemmas on lines, joining and the normalization pass -/

theorem joinSep_append_singleton (sep w : Str) (xs : List Str) (h : xs ≠ []) :
    joinSep sep (xs ++ [w]) = joinSep sep xs ++ sep ++ w := by
  induction xs with
  | nil => exact absurd rfl h
  | cons x rest ih =>
    cases rest with
    | nil => rfl
    | cons y ys =>
      have : joinSep sep ((x :: y :: ys) ++ [w])
          = x ++ sep ++ joinSep sep ((y :: ys) ++ [w]) := rfl
      rw [this, ih (by simp), joinSep]
      simp [List.append_assoc]

theorem splitLines_ne_nil (s : Str) : splitLines s ≠ [] := by
  cases s with
  | nil => simp [splitLines]
  | cons c rest =>
    simp only [splitLines]
    by_cases h : c = '\n'
    · simp [h]
    · rw [if_neg h]
      cases splitLines rest <;> simp

theorem splitLines_newline_cons (b : Str) :
    splitLines ('\n' :: b) = [] :: splitLines b := by
  simp [splitLines]

theorem splitLines_append_newline (a b : Str) :
    splitLines (a ++ '\n' :: b) = splitLines a ++ splitLines b := by
  induction a with
  | nil => simp [splitLines]
  | cons c rest ih =>
    by_cases h : c = '\n'
    · subst h
      rw [List.cons_append, splitLines_newline_cons, splitLines_newline_cons, ih,
        List.cons_append]
    · simp only [List.cons_append, splitLines, if_neg h]
      cases hr : splitLines rest with
      | nil => exact absurd hr (splitLines_ne_nil rest)
      | cons l ls =>
        simp only [List.append_eq]
        rw [ih, hr]
        simp

theorem splitLines_no_newline (a : Str) (h : '\n' ∉ a) : splitLines a = [a] := by
  induction a with
  | nil => rfl
  | cons c rest ih =>
    have hc : c ≠ '\n' := fun hx => h (by rw [hx]; exact List.mem_cons_self _ _)
    have hr : '\n' ∉ rest := fun hx => h (List.mem_cons.mpr (Or.inr hx))
    simp only [splitLines, if_neg hc, ih hr]

theorem mem_splitLines_no_newline (s : Str) : ∀ l ∈ splitLines s, '\n' ∉ l := by
  induction s with
  | nil => intro l hl; simp [splitLines] at hl; simp [hl]
  | cons c rest ih =>
    intro l hl
    by_cases h : c = '\n'
    · rw [splitLines, if_pos h] at hl
      rcases List.mem_cons.mp hl with h1 | h1
      · simp [h1]
      · exact ih l h1
    · rw [splitLines, if_neg h] at hl
      cases hr : splitLines rest with
      | nil => exact absurd hr (splitLines_ne_nil rest)
      | cons x xs =>
        rw [hr] at hl
        rcases List.mem_cons.mp hl with h1 | h1
        · subst h1
          intro hmem
          rcases List.mem_cons.mp hmem with h2 | h2
          · exact h h2.symm
          · exact ih x (by rw [hr]; exact List.mem_cons_self x xs) h2
        · exact ih l (by rw [hr]; exact List.mem_cons.mpr (Or.inr h1))

theorem splitLines_joinSep (ls : List Str) (hne : ls ≠ [])
    (h : ∀ l ∈ ls, '\n' ∉ l) :
    splitLines (joinSep "\n".data ls) = ls := by
  induction ls with
  | nil => exact absurd rfl hne
  | cons l rest ih =>
    cases rest with
    | nil =>
      exact splitLines_no_newline l (h l (List.mem_cons_self _ _))
    | cons m ms =>
      have hj : joinSep "\n".data (l :: m :: ms)
          = l ++ '\n' :: joinSep "\n".data (m :: ms) := by
        rw [joinSep]; simp
      rw [hj, splitLines_append_newline,
        splitLines_no_newline l (h l (List.mem_cons_self _ _)),
        ih (by simp) (fun x hx => h x (List.mem_cons.mpr (Or.inr hx)))]
      rfl

theorem collapseBlanks_cons (a : Str) (rest : List Str) :
    collapseBlanks (a :: rest) =
      if isBlank a && headBlank rest then collapseBlanks rest
      else a :: collapseBlanks rest := rfl

theorem collapseBlanks_of_no_blank (ls : List Str)
    (h : ∀ l ∈ ls, isBlank l = false) : collapseBlanks ls = ls := by
  induction ls with
  | nil => rfl
  | cons a rest ih =>
    have ha : isBlank a = false := h a (List.mem_cons_self _ _)
    rw [collapseBlanks_cons, if_neg (by simp [ha]),
      ih (fun x hx => h x (List.mem_cons.mpr (Or.inr hx)))]

theorem mem_collapseBlanks (ls : List Str) : ∀ l ∈ collapseBlanks ls, l ∈ ls := by
  induction ls with
  | nil => intro l hl; simp [collapseBlanks] at hl
  | cons a rest ih =>
    intro l hl
    rw [collapseBlanks_cons] at hl
    by_cases hc : (isBlank a && headBlank rest) = true
    · rw [if_pos hc] at hl
      exact List.mem_cons.mpr (Or.inr (ih l hl))
    · rw [if_neg hc] at hl
      rcases List.mem_cons.mp hl with h1 | h1
      · exact List.mem_cons.mpr (Or.inl h1)
      · exact List.mem_cons.mpr (Or.inr (ih l h1))

/-- Collapsing around a non-blank focus line: the focus survives and
everything after it collapses independently. -/
theorem collapseBlanks_focus (hdr : Str) (hhdr : isBlank hdr = false) :
    ∀ (xs ys : List Str),
      ∃ pre, collapseBlanks (xs ++ hdr :: ys) = pre ++ hdr :: collapseBlanks ys := by
  intro xs
  induction xs with
  | nil =>
    intro ys
    refine ⟨[], ?_⟩
    rw [List.nil_append, collapseBlanks_cons, if_neg (by simp [hhdr])]
    rfl
  | cons a rest ih =>
    intro ys
    obtain ⟨pre, hpre⟩ := ih ys
    by_cases hc : (isBlank a && headBlank (rest ++ hdr :: ys)) = true
    · refine ⟨pre, ?_⟩
      rw [List.cons_append, collapseBlanks_cons, if_pos hc, hpre]
    · refine ⟨a :: pre, ?_⟩
      rw [List.cons_append, collapseBlanks_cons, if_neg hc, hpre]
      rfl

theorem normBullet_no_newline (l : Str) (h : '\n' ∉ l) : '\n' ∉ normBullet l := by
  rw [normBullet]
  by_cases hc : l.take 2 = "- ".data
  · rw [if_pos hc]
    intro hm
    rcases List.mem_cons.mp hm with h1 | h1
    · exact absurd h1.symm (by decide)
    · exact h (List.mem_of_mem_drop h1)
  · rw [if_neg hc]; exact h

theorem normBullet_of_not_dash (l : Str) (h : l.take 2 ≠ "- ".data) :
    normBullet l = l := by rw [normBullet, if_neg h]

theorem normBullet_bulletLine (r : Str) : normBullet (bulletLine r) = bulletLine r := by
  apply normBullet_of_not_dash
  intro h
  have : ('*' : Char) = '-' := by
    have h0 : (bulletLine r).take 2 = ['*', ' '] := rfl
    rw [h0] at h
    exact List.head_eq_of_cons_eq h
  exact absurd this (by decide)

theorem isBlank_bulletLine (r : Str) : isBlank (bulletLine r) = false := by
  have h : pyStrip (bulletLine r) ≠ [] := by
    rw [Ne, pyStrip_eq_nil_iff]
    intro hall
    have hm : ('*' : Char) ∈ bulletLine r := by simp [bulletLine]
    exact absurd (hall '*' hm) (by decide)
  rw [isBlank]
  cases hp : pyStrip (bulletLine r) with
  | nil => exact absurd hp h
  | cons x xs => rfl

theorem bulletLine_cons (r : Str) :
    bulletLine r = '*' :: ' ' :: '[' :: (r ++ "](".data ++ r ++ ")".data) := by
  simp [bulletLine]

theorem isSectionHeader_bulletLine (r : Str) :
    isSectionHeader (bulletLine r) = false := by
  rw [isSectionHeader, bulletLine_cons]
  rfl

/-! ## Streaming -/

/-- Concatenation of a list of strings, in order. -/
def concatAll : List Str → Str
  | [] => []
  | s :: ss => s ++ concatAll ss

/-- With the observer present, the chunk loop sends exactly the chunks it
accumulates: the concatenation of the sent chunks is the accumulated text. -/
theorem concatAll_streamChunks (chunks : List Str) :
    concatAll (streamChunks true chunks).2 = (streamChunks true chunks).1 := by
  induction chunks with
  | nil => rfl
  | cons c rest ih =>
    simp only [streamChunks, if_pos rfl]
    rw [← ih]
    rfl

/-! ## Claim theorems -/

/-- Every generative phase returns already-stripped text. -/
theorem runGenPhase_result_stripped (hasObs : Bool) (o : GenOutcome) (f : Str) :
    pyStrip (runGenPhase hasObs o f).result = (runGenPhase hasObs o f).result := by
  rw [runGenPhase]
  dsimp only
  by_cases h : o.failed
  · rw [if_pos h]; exact pyStrip_idem f
  · rw [if_neg h]; exact pyStrip_idem _

/-- On a failed call, a phase returns the strip of its fallback. -/
theorem runGenPhase_failed (hasObs : Bool) (o : GenOutcome) (f : Str)
    (h : o.failed = true) : (runGenPhase hasObs o f).result = pyStrip f := by
  rw [runGenPhase]
  dsimp only
  rw [if_pos h]

/-- Claim C1 (counterexample): with the sweep call failing but the
format-enforcement call succeeding and returning different text, the
pipeline's output before assembly differs from the compose phase's output,
refuting "sweep failure implies the output before assembly equals the
compose output". -/
theorem claim1_counterexample :
    (GenOutcome.mk [] true).failed = true ∧
    pipelineBeforeAssembly ["A".data] true ⟨["# R".data], false⟩ ⟨[], true⟩
        ⟨["B".data], false⟩
      ≠ (compile_content ["A".data] true ⟨["# R".data], false⟩).result := by
  exact ⟨rfl, by decide⟩

/-- Claim C1 (amended): if the sweep phase's generative call fails, the sweep
phase's output equals the compose phase's output verbatim; and if the
format-enforcement phase's generative call fails, its output equals the sweep
phase's output verbatim. -/
theorem claim1_fallback_chain (briefings : List Str) (hasObs : Bool)
    (o1 o2 o3 : GenOutcome) :
    (o2.failed = true →
      (content_sweep (compile_content briefings hasObs o1).result hasObs o2).result
        = (compile_content briefings hasObs o1).result)
    ∧ (o3.failed = true →
      (clean_markdown
          (content_sweep (compile_content briefings hasObs o1).result hasObs o2).result
          hasObs o3).result
        = (content_sweep (compile_content briefings hasObs o1).result hasObs o2).result) := by
  constructor
  · intro hf
    rw [content_sweep, runGenPhase_failed _ _ _ hf, compile_content]
    exact runGenPhase_result_stripped hasObs o1 _
  · intro hf
    rw [clean_markdown, runGenPhase_failed _ _ _ hf, content_sweep]
    exact runGenPhase_result_stripped hasObs o2 _

/-- Claim C1 (witness): the amended fallback equalities at a concrete input. -/
theorem claim1_fallback_chain_witness :
    (content_sweep (compile_content ["x".data] true ⟨["y".data], false⟩).result
        true ⟨[], true⟩).result
      = (compile_content ["x".data] true ⟨["y".data], false⟩).result :=
  (claim1_fallback_chain ["x".data] true ⟨["y".data], false⟩ ⟨[], true⟩
    ⟨[], false⟩).1 rfl

/-- An editor state with every optional key absent. -/
def emptyEditorState : EditorState :=
  { company := none, industry := none, hq_location := none,
    company_briefing := none, industry_briefing := none,
    financial_briefing := none, news_briefing := none,
    references := [], hasObserver := true, messages := [], report := none }

/-- Claim C2 (counterexample): with one available briefing `" a"` and the
compose call failing, the compose phase returns `"a"`, the stripped
concatenation, not the raw concatenation `" a"`. -/
theorem claim2_counterexample :
    availableBriefings { emptyEditorState with company_briefing := some " a".data } ≠ []
    ∧ (compile_content
        ((availableBriefings
          { emptyEditorState with company_briefing := some " a".data }).map (·.2))
        true ⟨[], true⟩).result
      ≠ combinedContent
        ((availableBriefings
          { emptyEditorState with company_briefing := some " a".data }).map (·.2)) := by
  exact ⟨by decide, by decide⟩

/-- Claim C2 (amended): for every non-empty set of available briefings, if the
compose call fails, the compose phase returns the whitespace-stripped
`"\n\n"`-concatenation of those briefings, and the stored report field is
never a blank string: it is either explicitly absent or non-blank. -/
theorem claim2_compose_fallback (st : EditorState) (o1 o2 o3 : GenOutcome)
    (hav : availableBriefings st ≠ []) (hf : o1.failed = true) :
    (compile_content ((availableBriefings st).map (·.2)) st.hasObserver o1).result
        = pyStrip (combinedContent ((availableBriefings st).map (·.2)))
    ∧ ∀ r, (compile_briefings st o1 o2 o3).1.report = some r → pyStrip r ≠ [] := by
  constructor
  · rw [compile_content]
    exact runGenPhase_failed _ _ _ hf
  · intro r hr
    have hae : (availableBriefings st).isEmpty = false := by
      cases h : availableBriefings st with
      | nil => exact absurd h hav
      | cons a l => rfl
    simp only [compile_briefings, hae, Bool.false_eq_true, if_false] at hr
    by_cases hb : (pyStrip (edit_report ((availableBriefings st).map (·.2))
        st.references st.hasObserver o1 o2 o3).1).isEmpty
    · rw [if_pos hb] at hr
      simp at hr
    · rw [if_neg hb] at hr
      simp only [EditorState.mk.injEq] at hr
      have hr' : r = (edit_report ((availableBriefings st).map (·.2))
          st.references st.hasObserver o1 o2 o3).1 := by
        have := hr
        simp at this
        exact this.symm
      rw [hr']
      intro hnil
      rw [hnil] at hb
      exact hb rfl

/-- Claim C2 (witness): the amended compose fallback at a concrete input. -/
theorem claim2_compose_fallback_witness :
    (compile_content
        ((availableBriefings
          { emptyEditorState with company_briefing := some "x".data }).map (·.2))
        ({ emptyEditorState with company_briefing := some "x".data } :
          EditorState).hasObserver ⟨[], true⟩).result
      = pyStrip (combinedContent
        ((availableBriefings
          { emptyEditorState with company_briefing := some "x".data }).map (·.2))) :=
  (claim2_compose_fallback { emptyEditorState with company_briefing := some "x".data }
    ⟨[], true⟩ ⟨[], false⟩ ⟨[], false⟩ (by decide) rfl).1

/-- With every briefing key untruthy, no briefing is available. -/
theorem availableBriefings_eq_nil (st : EditorState)
    (h1 : truthy st.company_briefing = false)
    (h2 : truthy st.industry_briefing = false)
    (h3 : truthy st.financial_briefing = false)
    (h4 : truthy st.news_briefing = false) :
    availableBriefings st = [] := by
  have g : ∀ (o : Option Str), truthy o = false → ∀ (n : Str),
      (match o with
       | some s => if s.isEmpty then none else some (n, s)
       | none => none) = (none : Option (Str × Str)) := by
    intro o ho n
    cases o with
    | none => rfl
    | some s =>
      rw [truthy] at ho
      have hs : s.isEmpty = true := by simpa using ho
      simp [hs]
  rw [availableBriefings, briefingEntries]
  simp only [List.filterMap]
  rw [g st.company_briefing h1 "company".data,
    g st.industry_briefing h2 "industry".data,
    g st.financial_briefing h3 "financial".data,
    g st.news_briefing h4 "news".data]

/-- Claim C3: if all four category briefing keys are absent or empty, the
finalization stage sets the report to the explicit absent value, makes zero
generative backend calls, and appends one narrative entry ending in the
reason line. -/
theorem claim3_empty_short_circuit (st : EditorState) (o1 o2 o3 : GenOutcome)
    (h1 : truthy st.company_briefing = false)
    (h2 : truthy st.industry_briefing = false)
    (h3 : truthy st.financial_briefing = false)
    (h4 : truthy st.news_briefing = false) :
    (compile_briefings st o1 o2 o3).1.report = none
    ∧ (compile_briefings st o1 o2 o3).2 = 0
    ∧ ∃ entry, (compile_briefings st o1 o2 o3).1.messages = st.messages ++ [entry]
        ∧ "\n⚠️ No briefing sections available to compile".data <:+ entry := by
  have hbr : availableBriefings st = [] := availableBriefings_eq_nil st h1 h2 h3 h4
  have hae : (availableBriefings st).isEmpty = true := by rw [hbr]; rfl
  refine ⟨?_, ?_, ?_⟩
  · simp [compile_briefings, hae]
  · simp [compile_briefings, hae]
  · refine ⟨joinSep "\n".data
      ((("📑 Compiling final report for ".data
          ++ st.company.getD "Unknown Company".data ++ "...".data)
        :: (briefingEntries st).map briefingMsg)
       ++ ["\n⚠️ No briefing sections available to compile".data]), ?_, ?_⟩
    · simp [compile_briefings, hae]
    · rw [joinSep_append_singleton _ _ _ (by simp)]
      exact ⟨_, rfl⟩

/-- Claim C3 (witness): the short circuit at a concrete all-absent state. -/
theorem claim3_empty_short_circuit_witness :
    (compile_briefings emptyEditorState ⟨[], false⟩ ⟨[], false⟩ ⟨[], false⟩).1.report
      = none :=
  (claim3_empty_short_circuit emptyEditorState ⟨[], false⟩ ⟨[], false⟩ ⟨[], false⟩
    rfl rfl rfl rfl).1

/-- Claim C6: with the observer channel present, the concatenation of the
chunks each generative phase streams equals that phase's accumulated result,
for all three phases (compose, sweep, format enforcement). -/
theorem claim6_streaming_completeness (briefings : List Str) (c1 c2 : Str)
    (o1 o2 o3 : GenOutcome) :
    concatAll (compile_content briefings true o1).streamed
        = (compile_content briefings true o1).accumulated
    ∧ concatAll (content_sweep c1 true o2).streamed
        = (content_sweep c1 true o2).accumulated
    ∧ concatAll (clean_markdown c2 true o3).streamed
        = (clean_markdown c2 true o3).accumulated :=
  ⟨concatAll_streamChunks o1.chunks, concatAll_streamChunks o2.chunks,
   concatAll_streamChunks o3.chunks⟩

/-- A state whose sub-query generation raises. -/
def c4state1 : CompanyState :=
  { company := some "Acme".data, company_url := none, site_scrape := none,
    messages := [] }

/-- An environment whose `generate_queries` call raises `"boom"`. -/
def c4env1 : AnalyzeEnv :=
  { queries := .error "boom".data, search := fun _ => .ok [] }

/-- A state with a truthy site scrape. -/
def c4state2 : CompanyState :=
  { company := some "Acme".data, company_url := none,
    site_scrape := some "data".data, messages := [] }

/-- An environment whose retrieval call raises `"x"` on every sub-query. -/
def c4env2 : AnalyzeEnv :=
  { queries := .ok ["q".data], search := fun _ => .error "x".data }

/-- The stage result for `c4state2`/`c4env2`: the retrieval failure is
contained, but the degraded result still holds the site-scrape document. -/
def c4res2 : AnalyzeResult :=
  { message := ["🏢 Company Analyzer analyzing Acme".data,
      "\n📊 Including site scrape data in company analysis...".data,
      "\n⚠️ Error during research: x".data],
    company_data := [("company-website".data, siteDoc "Acme".data "data".data)] }

/-- Claim C4 (counterexample): an exception in sub-query generation
propagates out of the stage, and a contained retrieval failure degrades to a
non-empty result (the site-scrape entry survives) — refuting "any exception
degrades to an empty result and never propagates". -/
theorem claim4_counterexample :
    analyze c4state1 c4env1 = Except.error "boom".data
    ∧ analyze c4state2 c4env2 = Except.ok c4res2
    ∧ c4res2.company_data ≠ [] :=
  ⟨rfl, rfl, by simp [c4res2]⟩

/-- Claim C4 (amended): once sub-query generation succeeds, `analyze` never
raises; a retrieval-loop failure is contained, appends the error narrative
entry, and keeps the documents collected so far — in particular the
site-scrape key stays present when the site scrape was truthy. -/
theorem claim4_containment (st : CompanyState) (env : AnalyzeEnv) (qs : List Str)
    (hq : env.queries = Except.ok qs) :
    ∃ r, analyze st env = Except.ok r
      ∧ (∀ e, (researchLoop env.search qs (initialCompanyData st)).2 = some e →
            researchErrMsg e ∈ r.message)
      ∧ (truthy st.site_scrape = true →
            lookupKey (st.company_url.getD "company-website".data)
              r.company_data ≠ none) := by
  refine ⟨_, by rw [analyze, hq], ?_, ?_⟩
  · intro e he
    dsimp only
    rw [he]
    exact List.mem_append_right _ (List.mem_cons_self _ _)
  · intro hsite
    dsimp only
    apply lookupKey_researchLoop_ne_none
    rw [initialCompanyData, if_pos hsite, lookupKey]
    simp [List.find?]

/-- Claim C4 (witness): containment at a concrete failing retrieval. -/
theorem claim4_containment_witness :
    ∃ r, analyze c4state2 c4env2 = Except.ok r
      ∧ (∀ e, (researchLoop c4env2.search ["q".data]
            (initialCompanyData c4state2)).2 = some e →
            researchErrMsg e ∈ r.message)
      ∧ (truthy c4state2.site_scrape = true →
            lookupKey (c4state2.company_url.getD "company-website".data)
              r.company_data ≠ none) :=
  claim4_containment c4state2 c4env2 ["q".data] rfl

/-- Claim C5 (counterexample): the company stage's returned update keys and
the financial stage's (spec-modelled) update keys share the narrative key
`"message"`, so the written key sets of this pair of concurrent fan-out
stages are not disjoint. -/
theorem claim5_counterexample :
    "message" ∈ companyUpdateKeys ∧ "message" ∈ financialUpdateKeys
    ∧ ¬(∀ k ∈ companyUpdateKeys, k ∉ financialUpdateKeys) := by
  decide

/-- Claim C5 (amended): the update key sets of distinct concurrent fan-out
stages intersect only in the shared narrative key `"message"`; their
per-category data keys are pairwise distinct. -/
theorem claim5_data_keys_exclusive :
    List.Pairwise (fun a b => ∀ k ∈ a, k ∈ b → k = "message") fanOutUpdateKeys
    ∧ fanOutDataKeys.Nodup := by
  constructor
  · decide
  · decide

/-- Claim C8: the stage graph has `grounding` as its only source and entry
point, `output` as its only sink and finish point, edges from `grounding` to
each analysis stage and from each analysis stage to `collector`, the linear
chain `collector → curator → enricher → briefing → editor → output`, and
exactly those thirteen edges; hence `collector` is eligible only once all
four analysis stages have completed. -/
theorem claim8_topology :
    entryPoint = "grounding" ∧ finishPoint = "output"
    ∧ (∀ n ∈ graphNodes, (hasIncoming n = false ↔ n = "grounding"))
    ∧ (∀ n ∈ graphNodes, (hasOutgoing n = false ↔ n = "output"))
    ∧ (∀ m, ((m, "collector") ∈ graphEdges ↔ m ∈ researchNodes))
    ∧ (∀ m, (("grounding", m) ∈ graphEdges ↔ m ∈ researchNodes))
    ∧ (("collector", "curator") ∈ graphEdges ∧ ("curator", "enricher") ∈ graphEdges
        ∧ ("enricher", "briefing") ∈ graphEdges ∧ ("briefing", "editor") ∈ graphEdges
        ∧ ("editor", "output") ∈ graphEdges ∧ graphEdges.length = 13)
    ∧ (∀ completed, eligible "collector" completed →
        ∀ a ∈ researchNodes, a ∈ completed) := by
  refine ⟨rfl, rfl, ?_, ?_, ?_, ?_, by decide, ?_⟩
  · intro n hn
    fin_cases hn <;> decide
  · intro n hn
    fin_cases hn <;> decide
  · intro m
    constructor
    · intro h
      simp only [graphEdges, List.mem_cons, List.not_mem_nil, or_false,
        Prod.mk.injEq] at h
      simp only [researchNodes, List.mem_cons, List.not_mem_nil, or_false]
      tauto
    · intro h
      fin_cases h <;> decide
  · intro m
    constructor
    · intro h
      simp only [graphEdges, List.mem_cons, List.not_mem_nil, or_false,
        Prod.mk.injEq] at h
      simp only [researchNodes, List.mem_cons, List.not_mem_nil, or_false]
      tauto
    · intro h
      fin_cases h <;> decide
  · intro completed h a ha
    apply h
    fin_cases ha <;> decide

/-- Claim C8 (witness): the eligibility consequence discharged at the
concrete completed set consisting of the four analysis stages. -/
theorem claim8_topology_witness :
    ∀ a ∈ researchNodes, a ∈ researchNodes :=
  claim8_topology.2.2.2.2.2.2.2 researchNodes
    (fun m hm => (claim8_topology.2.2.2.2.1 m).mp hm)

/-- From a successful `analyze` run, the stored `company_data` is the
research loop's result over the seeded data. -/
theorem analyze_company_data (st : CompanyState) (env : AnalyzeEnv)
    (qs : List Str) (r : AnalyzeResult)
    (hq : env.queries = Except.ok qs) (hr : analyze st env = Except.ok r) :
    r.company_data = (researchLoop env.search qs (initialCompanyData st)).1 := by
  rw [analyze, hq] at hr
  have := Except.ok.inj hr
  rw [← this]

/-- Claim C9: every entry of the stage's stored document collection is
either the pre-fetched site-scrape entry (tagged with the default site
query) or a document retrieved for one of the generated sub-queries, and in
the latter case its stored `query` field equals the sub-query that
originated its retrieval. -/
theorem claim9_query_tagging (st : CompanyState) (env : AnalyzeEnv)
    (qs : List Str) (r : AnalyzeResult)
    (hq : env.queries = Except.ok qs) (hr : analyze st env = Except.ok r) :
    ∀ u d, (u, d) ∈ r.company_data →
      (truthy st.site_scrape = true
        ∧ u = st.company_url.getD "company-website".data
        ∧ d = siteDoc (st.company.getD "Unknown Company".data) (st.site_scrape.getD [])
        ∧ d.query = siteQuery (st.company.getD "Unknown Company".data))
      ∨ (∃ q ∈ qs, ∃ docs, env.search q = Except.ok docs ∧
          ∃ rd, (u, rd) ∈ docs ∧ d = tagDoc q rd ∧ d.query = q) := by
  intro u d hm
  rw [analyze_company_data st env qs r hq hr] at hm
  rcases mem_researchLoop env.search qs (initialCompanyData st) (u, d) hm with h | h
  · obtain ⟨q, hq', docs, hs, ud, hud, heq⟩ := h
    right
    refine ⟨q, hq', docs, hs, ud.2, ?_, ?_, ?_⟩
    · have h1 : u = ud.1 := congrArg Prod.fst heq
      rw [h1]
      exact hud
    · exact congrArg Prod.snd heq
    · have h2 : d = tagDoc q ud.2 := congrArg Prod.snd heq
      rw [h2]; rfl
  · left
    rw [initialCompanyData] at h
    by_cases hs : truthy st.site_scrape
    · rw [if_pos hs] at h
      rcases List.mem_singleton.mp h with heq
      refine ⟨hs, congrArg Prod.fst heq, congrArg Prod.snd heq, ?_⟩
      have h2 : d = siteDoc (st.company.getD "Unknown Company".data)
          (st.site_scrape.getD []) := congrArg Prod.snd heq
      rw [h2]; rfl
    · rw [if_neg hs] at h
      exact absurd h (List.not_mem_nil _)

/-- A state with no site scrape, for the retrieval-tagging witnesses. -/
def c9state : CompanyState :=
  { company := some "Acme".data, company_url := none, site_scrape := none,
    messages := [] }

/-- A retrieved document. -/
def c9rd : RawDoc := { title := "t".data, raw_content := "c".data, score := none }

/-- One sub-query whose retrieval returns one document at locator `"u"`. -/
def c9env : AnalyzeEnv :=
  { queries := .ok ["alpha".data],
    search := fun q => if q = "alpha".data then .ok [("u".data, c9rd)] else .ok [] }

/-- The stage result for `c9state`/`c9env`. -/
def c9res : AnalyzeResult :=
  { message := ["🏢 Company Analyzer analyzing Acme".data,
      "\n✓ Found 1 documents".data],
    company_data := [("u".data, tagDoc "alpha".data c9rd)] }

/-- Claim C9 (witness): the tagging disjunction at the concrete stored
entry of the `c9state`/`c9env` run. -/
theorem claim9_query_tagging_witness :
    (truthy c9state.site_scrape = true
      ∧ "u".data = c9state.company_url.getD "company-website".data
      ∧ tagDoc "alpha".data c9rd
          = siteDoc (c9state.company.getD "Unknown Company".data)
              (c9state.site_scrape.getD [])
      ∧ (tagDoc "alpha".data c9rd).query
          = siteQuery (c9state.company.getD "Unknown Company".data))
    ∨ (∃ q ∈ ["alpha".data], ∃ docs, c9env.search q = Except.ok docs ∧
        ∃ rd, ("u".data, rd) ∈ docs ∧ tagDoc "alpha".data c9rd = tagDoc q rd
          ∧ (tagDoc "alpha".data c9rd).query = q) :=
  claim9_query_tagging c9state c9env ["alpha".data] c9res rfl rfl
    "u".data (tagDoc "alpha".data c9rd) (by decide)

/-- `lookupKey` over writes applied to the empty dict is the last write. -/
theorem lookupKey_applyWrites_nil (u : Str) (ws : List (Str × CompanyDoc)) :
    lookupKey u (applyWrites ws []) = lastWrite u ws := by
  rw [lookupKey_applyWrites]
  cases lastWrite u ws <;> rfl

/-- The seeded data is the application of the seed writes. -/
theorem initialCompanyData_eq_applyWrites (st : CompanyState) :
    initialCompanyData st = applyWrites (initialWrites st) [] := by
  rw [initialCompanyData, initialWrites]
  by_cases h : truthy st.site_scrape
  · rw [if_pos h]; rfl
  · rw [if_neg h]; rfl

/-- Claim C10: the stored collection is keyed by source locator with Python
dict overwrite semantics — for every locator, the document stored at the end
of the stage is the document of the last write to that locator in program
order (site-scrape seed first, then each sub-query batch in order), so an
overwritten document and its query tag do not survive. -/
theorem claim10_last_write_wins (st : CompanyState) (env : AnalyzeEnv)
    (qs : List Str) (r : AnalyzeResult) (u : Str)
    (hq : env.queries = Except.ok qs) (hr : analyze st env = Except.ok r) :
    lookupKey u r.company_data
      = lastWrite u (initialWrites st ++ loopWrites env.search qs) := by
  rw [analyze_company_data st env qs r hq hr,
    initialCompanyData_eq_applyWrites,
    researchLoop_eq_applyWrites,
    ← applyWrites_append,
    lookupKey_applyWrites_nil]

/-- Claim C10 (witness): last-write lookup at the concrete run. -/
theorem claim10_last_write_wins_witness :
    lookupKey "u".data c9res.company_data
      = lastWrite "u".data
          (initialWrites c9state ++ loopWrites c9env.search ["alpha".data]) :=
  claim10_last_write_wins c9state c9env ["alpha".data] c9res "u".data rfl rfl

theorem isEmpty_false_of_ne_nil {α : Type} (l : List α) (h : l ≠ []) :
    l.isEmpty = false := by
  cases l with
  | nil => exact absurd rfl h
  | cons a t => rfl

theorem bulletLine_no_newline (r : Str) (h : '\n' ∉ r) : '\n' ∉ bulletLine r := by
  intro hm
  rw [bulletLine] at hm
  rcases List.mem_append.mp hm with h1 | h1
  · rcases List.mem_append.mp h1 with h2 | h2
    · rcases List.mem_append.mp h2 with h3 | h3
      · rcases List.mem_append.mp h3 with h4 | h4
        · exact absurd h4 (by decide)
        · exact h h4
      · exact absurd h3 (by decide)
    · exact h h2
  · exact absurd h1 (by decide)

/-- Claim C7: for every compilation that reaches the assembly step (both
early exits not taken) with single-line references, the references section
is appended exactly when the reference list is non-empty: with no references
the document is just the normalized format-enforced text, and with
references the document's line sequence ends in the `## References` header
followed by one bullet line per reference, with no section header after
it — the references section is the last section. -/
theorem claim7_references_assembly (briefings refs : List Str) (hasObs : Bool)
    (o1 o2 o3 : GenOutcome)
    (h1 : (compile_content briefings hasObs o1).result ≠ [])
    (h2 : (content_sweep (compile_content briefings hasObs o1).result hasObs
            o2).result ≠ [])
    (hrefs : ∀ r ∈ refs, '\n' ∉ r) :
    (refs = [] →
      (edit_report briefings refs hasObs o1 o2 o3).1
        = standardize_markdown
            (clean_markdown
              (content_sweep (compile_content briefings hasObs o1).result hasObs
                o2).result hasObs o3).result)
    ∧ (refs ≠ [] →
      isSectionHeader "## References".data = true
      ∧ ∃ pre,
          splitLines (edit_report briefings refs hasObs o1 o2 o3).1
            = pre ++ "## References".data :: ([] : Str) :: refs.map bulletLine
          ∧ ∀ l ∈ ([] : Str) :: refs.map bulletLine, isSectionHeader l = false) := by
  set body := (clean_markdown
    (content_sweep (compile_content briefings hasObs o1).result hasObs o2).result
    hasObs o3).result with hbody
  have hred : (edit_report briefings refs hasObs o1 o2 o3).1
      = standardize_markdown
          (if refs.isEmpty then body else body ++ referencesBlock refs) := by
    rw [edit_report]
    simp only [isEmpty_false_of_ne_nil _ h1, isEmpty_false_of_ne_nil _ h2,
      Bool.false_eq_true, if_false]
  constructor
  · intro hrnil
    subst hrnil
    rw [hred]
    rfl
  · intro hrne
    obtain ⟨r0, rest, rfl⟩ : ∃ r0 rest, refs = r0 :: rest := by
      cases refs with
      | nil => exact absurd rfl hrne
      | cons a l => exact ⟨a, l, rfl⟩
    refine ⟨by decide, ?_⟩
    have hmapne : (r0 :: rest).map bulletLine ≠ [] := by simp
    have hmapnl : ∀ l ∈ (r0 :: rest).map bulletLine, '\n' ∉ l := by
      intro l hl
      obtain ⟨x, hx, rfl⟩ := List.mem_map.mp hl
      exact bulletLine_no_newline x (hrefs x hx)
    have hmapnb : ∀ l ∈ (r0 :: rest).map bulletLine, isBlank l = false := by
      intro l hl
      obtain ⟨x, hx, rfl⟩ := List.mem_map.mp hl
      exact isBlank_bulletLine x
    have hlit : "\n\n## References\n".data
        = '\n' :: ('\n' :: ("## References".data ++ ['\n'])) := rfl
    have hb : referencesBlock (r0 :: rest)
        = '\n' :: ('\n' :: ("## References".data
            ++ '\n' :: ('\n'
              :: joinSep "\n".data ((r0 :: rest).map bulletLine)))) := by
      rw [referencesBlock]
      have hj : joinSep "\n".data
          ("\n\n## References\n".data :: (r0 :: rest).map bulletLine)
          = "\n\n## References\n".data ++ "\n".data
            ++ joinSep "\n".data ((r0 :: rest).map bulletLine) := by
        rw [List.map_cons, joinSep]
      rw [hj, hlit]
      simp
    have hJ : splitLines (joinSep "\n".data ((r0 :: rest).map bulletLine))
        = (r0 :: rest).map bulletLine :=
      splitLines_joinSep _ hmapne hmapnl
    have hhdrnl : ('\n' : Char) ∉ "## References".data := by decide
    have hsl : splitLines (body ++ referencesBlock (r0 :: rest))
        = splitLines body
          ++ ([] : Str) :: "## References".data :: ([] : Str)
            :: (r0 :: rest).map bulletLine := by
      rw [hb, splitLines_append_newline, splitLines_newline_cons,
        splitLines_append_newline, splitLines_no_newline _ hhdrnl,
        splitLines_newline_cons, hJ]
      simp
    have hnorm_nil : normBullet ([] : Str) = [] := by decide
    have hnorm_hdr : normBullet "## References".data = "## References".data := by
      decide
    have hmap : (splitLines (body ++ referencesBlock (r0 :: rest))).map normBullet
        = ((splitLines body).map normBullet ++ [([] : Str)])
          ++ "## References".data :: ([] : Str) :: (r0 :: rest).map bulletLine := by
      rw [hsl]
      simp only [List.map_append, List.map_cons, hnorm_nil, hnorm_hdr,
        List.map_map]
      have hcomp : rest.map (normBullet ∘ bulletLine) = rest.map bulletLine := by
        apply List.map_congr_left
        intro a _
        exact normBullet_bulletLine a
      rw [normBullet_bulletLine r0, hcomp]
      simp
    have hys : collapseBlanks (([] : Str) :: (r0 :: rest).map bulletLine)
        = ([] : Str) :: (r0 :: rest).map bulletLine := by
      rw [collapseBlanks_cons]
      have hhb : headBlank ((r0 :: rest).map bulletLine) = false := by
        rw [List.map_cons, headBlank, isBlank_bulletLine]
      rw [hhb, Bool.and_false, if_neg (by simp),
        collapseBlanks_of_no_blank _ hmapnb]
    obtain ⟨pre, hpre⟩ := collapseBlanks_focus "## References".data (by decide)
      ((splitLines body).map normBullet ++ [([] : Str)])
      (([] : Str) :: (r0 :: rest).map bulletLine)
    have hceq : collapseBlanks
        ((splitLines (body ++ referencesBlock (r0 :: rest))).map normBullet)
        = pre ++ "## References".data :: ([] : Str) :: (r0 :: rest).map bulletLine := by
      rw [hmap, hpre, hys]
    have hcnl : ∀ l ∈ collapseBlanks
        ((splitLines (body ++ referencesBlock (r0 :: rest))).map normBullet),
        '\n' ∉ l := by
      intro l hl
      have hl' := mem_collapseBlanks _ l hl
      obtain ⟨x, hx, rfl⟩ := List.mem_map.mp hl'
      exact normBullet_no_newline x (mem_splitLines_no_newline _ x hx)
    refine ⟨pre, ?_, ?_⟩
    · rw [hred, if_neg (by simp), standardize_markdown, ← hceq]
      apply splitLines_joinSep
      · rw [hceq]; simp
      · exact hcnl
    · intro l hl
      rcases List.mem_cons.mp hl with h | h
      · rw [h]; decide
      · obtain ⟨x, _, rfl⟩ := List.mem_map.mp h
        exact isSectionHeader_bulletLine x

/-- Claim C7 (witness): the assembled document at a concrete run with one
reference, exhibiting the trailing references section. -/
theorem claim7_references_assembly_witness :
    ∃ pre,
      splitLines (edit_report ["b".data] ["u1".data] true ⟨["Body".data], false⟩
          ⟨["S".data], false⟩ ⟨["F".data], false⟩).1
        = pre ++ "## References".data :: ([] : Str) :: ["u1".data].map bulletLine
      ∧ ∀ l ∈ ([] : Str) :: ["u1".data].map bulletLine,
          isSectionHeader l = false :=
  ((claim7_references_assembly ["b".data] ["u1".data] true ⟨["Body".data], false⟩
    ⟨["S".data], false⟩ ⟨["F".data], false⟩ (by decide) (by decide)
    (by decide)).2 (by decide)).2

end TavilyResearch
